import Mathlib

/-!
Verification of the urban nature access model
(src/src/natcap/invest/urban_nature_access.py).

Rasters are modelled per pixel: each per-pixel numpy operation becomes a
Lean function on exact rationals (ℚ), with float32 machine values idealized
as exact rationals.  The decay-kernel functions, which use transcendental
functions, are modelled over ℝ.  External collaborators (pygeoprocessing
convolution and warping) are modelled abstractly where a claim needs them.
-/

namespace UrbanNatureAccess

/-- `FLOAT32_NODATA = float(numpy.finfo(numpy.float32).min)`, the exact
value of the minimum finite float32, `-(2 - 2^-23) * 2^127`. -/
def FLOAT32_NODATA : ℚ := -(2 ^ 128 - 2 ^ 104)

/-- `numpy.isclose(a, b)` with the default tolerances
`rtol=1e-05, atol=1e-08`: true iff `|a - b| <= atol + rtol * |b|`. -/
def npIsclose (a b : ℚ) : Bool := |a - b| ≤ 1 / 10 ^ 8 + (1 / 10 ^ 5) * |b|

/-- `utils.array_equals_nodata(array, nodata)`, a repository helper not
under src/: it returns an all-False mask when the nodata value is `None`,
and `numpy.isclose(array, nodata)` otherwise. -/
def equalsNodata (v : ℚ) (nodata : Option ℚ) : Bool :=
  match nodata with
  | none => false
  | some nd => npIsclose v nd

/-- Unfolding lemma: `npIsclose a b = true` iff the numpy closeness
inequality holds. -/
theorem npIsclose_true_iff (a b : ℚ) :
    npIsclose a b = true ↔ |a - b| ≤ 1 / 10 ^ 8 + (1 / 10 ^ 5) * |b| := by
  simp [npIsclose]

/-- Unfolding lemma: `npIsclose a b = false` iff the numpy closeness
inequality fails. -/
theorem npIsclose_false_iff (a b : ℚ) :
    npIsclose a b = false ↔ ¬ (|a - b| ≤ 1 / 10 ^ 8 + (1 / 10 ^ 5) * |b|) := by
  simp [npIsclose]

/-- A nonnegative value is never close to the large negative
`FLOAT32_NODATA` sentinel. -/
theorem npIsclose_nodata_eq_false_of_nonneg {v : ℚ} (hv : 0 ≤ v) :
    npIsclose v FLOAT32_NODATA = false := by
  have hnd : FLOAT32_NODATA = -(2 ^ 128 - 2 ^ 104) := rfl
  have hpos : (0 : ℚ) ≤ 2 ^ 128 - 2 ^ 104 := by norm_num
  have habs : |FLOAT32_NODATA| = 2 ^ 128 - 2 ^ 104 := by
    rw [hnd, abs_neg, abs_of_nonneg hpos]
  have hsub : |v - FLOAT32_NODATA| = v + (2 ^ 128 - 2 ^ 104) := by
    rw [hnd, sub_neg_eq_add, abs_of_nonneg (by linarith)]
  rw [npIsclose_false_iff, habs, hsub, not_le]
  nlinarith

/-!
## Pixel geometry normalizer: `_square_off_pixels`

The source reads a raster's `(pixel_width, pixel_height)`; if the absolute
sizes already agree it returns them unchanged, otherwise each output
component is the mean absolute size times a sign factor that is `-1`
exactly when the corresponding input component is negative.
-/

def squareOffPixels (w h : ℚ) : ℚ × ℚ :=
  if |w| = |h| then (w, h)
  else (((|w| + |h|) / 2) * (if w < 0 then -1 else 1),
        ((|w| + |h|) / 2) * (if h < 0 then -1 else 1))

/-!
## Convolution lower bound: `_convolve_and_set_lower_bound`

After the external convolution runs, each block pixel `v` is replaced by
`0` iff `v < 0` and `v` is not numpy-close to the raster's nodata value
(all pixels count as valid when the nodata value is `None`).
-/

def setLowerBound (nodata : Option ℚ) (v : ℚ) : ℚ :=
  match nodata with
  | none => if v < 0 then 0 else v
  | some nd => if v < 0 ∧ ¬ npIsclose v nd then 0 else v

/-- C9: For every pixel-size pair `(w, h)`, `_square_off_pixels` returns
`(w', h')` with `|w'| = |h'| = (|w| + |h|) / 2`, each component keeping the
sign of the corresponding input (negative iff the input was negative,
nonnegative iff the input was nonnegative); and when `|w| = |h|` the input
pair is returned unchanged. -/
theorem squareOffPixels_spec (w h : ℚ) :
    |(squareOffPixels w h).1| = (|w| + |h|) / 2 ∧
    |(squareOffPixels w h).2| = (|w| + |h|) / 2 ∧
    ((squareOffPixels w h).1 < 0 ↔ w < 0) ∧
    ((squareOffPixels w h).2 < 0 ↔ h < 0) ∧
    (|w| = |h| → squareOffPixels w h = (w, h)) := by
  by_cases heq : |w| = |h|
  · have h1 : squareOffPixels w h = (w, h) := by
      simp only [squareOffPixels, if_pos heq]
    rw [h1]
    exact ⟨by rw [heq] ; ring_nf, by rw [heq] ; ring_nf, Iff.rfl, Iff.rfl, fun _ => rfl⟩
  · have hmean : 0 < (|w| + |h|) / 2 := by
      rcases lt_or_le w 0 with hw | hw
      · have : 0 < |w| := abs_pos.mpr (ne_of_lt hw)
        have : 0 ≤ |h| := abs_nonneg h
        linarith
      · rcases eq_or_lt_of_le hw with hw0 | hw0
        · have hh : |h| ≠ 0 := by
            intro h0
            exact heq (by rw [← hw0, abs_zero, h0])
          have : 0 < |h| := lt_of_le_of_ne (abs_nonneg h) (Ne.symm hh)
          have : 0 ≤ |w| := abs_nonneg w
          linarith
        · have : 0 < |w| := abs_pos.mpr (ne_of_gt hw0)
          have : 0 ≤ |h| := abs_nonneg h
          linarith
    simp only [squareOffPixels, if_neg heq]
    refine ⟨?_, ?_, ?_, ?_, fun hc => absurd hc heq⟩
    · rcases lt_or_le w 0 with hw | hw
      · rw [if_pos hw] ; rw [abs_of_nonpos (by nlinarith)] ; ring
      · rw [if_neg (not_lt.mpr hw)] ; rw [abs_of_nonneg (by nlinarith)] ; ring
    · rcases lt_or_le h 0 with hh | hh
      · rw [if_pos hh] ; rw [abs_of_nonpos (by nlinarith)] ; ring
      · rw [if_neg (not_lt.mpr hh)] ; rw [abs_of_nonneg (by nlinarith)] ; ring
    · constructor
      · intro hlt
        by_contra hw
        rw [if_neg hw] at hlt
        nlinarith
      · intro hw
        rw [if_pos hw]
        nlinarith
    · constructor
      · intro hlt
        by_contra hh
        rw [if_neg hh] at hlt
        nlinarith
      · intro hh
        rw [if_pos hh]
        nlinarith

/-- Witness for C9 at the concrete input `(2, -4)`: the normalizer yields
`(3, -3)` and the `|w| = |h|` case returns `(2, 2)` unchanged. -/
theorem squareOffPixels_spec_witness :
    |(squareOffPixels 2 (-4)).1| = (|(2 : ℚ)| + |(-4 : ℚ)|) / 2 ∧
    (|(2 : ℚ)| = |(2 : ℚ)|) ∧ squareOffPixels 2 2 = (2, 2) :=
  ⟨(squareOffPixels_spec 2 (-4)).1, rfl,
    (squareOffPixels_spec 2 2).2.2.2.2 rfl⟩

/-- C8: After the lower-bound pass of `_convolve_and_set_lower_bound`,
every valid (not numpy-close to nodata) pixel is `≥ 0`; every negative
valid pixel is clamped to exactly `0`; nodata-close cells are untouched;
and nonnegative values are unchanged. -/
theorem setLowerBound_spec (nd v : ℚ) :
    (npIsclose v nd = false → 0 ≤ setLowerBound (some nd) v) ∧
    (v < 0 → npIsclose v nd = false → setLowerBound (some nd) v = 0) ∧
    (npIsclose v nd = true → setLowerBound (some nd) v = v) ∧
    (0 ≤ v → setLowerBound (some nd) v = v) := by
  refine ⟨?_, ?_, ?_, ?_⟩
  · intro hvalid
    simp only [setLowerBound]
    by_cases hneg : v < 0 ∧ ¬ npIsclose v nd
    · rw [if_pos hneg]
    · rw [if_neg hneg]
      rcases not_and_or.mp hneg with hge | hclose
      · exact not_lt.mp hge
      · exact absurd (by simp [hvalid]) hclose
  · intro hneg hvalid
    simp only [setLowerBound]
    rw [if_pos ⟨hneg, by simp [hvalid]⟩]
  · intro hclose
    simp only [setLowerBound]
    rw [if_neg (by simp [hclose])]
  · intro hpos
    simp only [setLowerBound]
    rw [if_neg (by simp [not_lt.mpr hpos])]

/-- Witness for C8 at the concrete inputs `nd = FLOAT32_NODATA`,
`v = -5` (clamped to 0) and `v = FLOAT32_NODATA` (left untouched). -/
theorem setLowerBound_spec_witness :
    npIsclose (-5) FLOAT32_NODATA = false ∧
    setLowerBound (some FLOAT32_NODATA) (-5) = 0 ∧
    npIsclose FLOAT32_NODATA FLOAT32_NODATA = true ∧
    setLowerBound (some FLOAT32_NODATA) FLOAT32_NODATA = FLOAT32_NODATA := by
  have hfar : npIsclose (-5) FLOAT32_NODATA = false := by
    rw [npIsclose_false_iff] ; norm_num [FLOAT32_NODATA]
  have hclose : npIsclose FLOAT32_NODATA FLOAT32_NODATA = true := by
    rw [npIsclose_true_iff] ; norm_num [FLOAT32_NODATA]
  exact ⟨hfar, (setLowerBound_spec FLOAT32_NODATA (-5)).2.1 (by norm_num) hfar,
    hclose, (setLowerBound_spec FLOAT32_NODATA FLOAT32_NODATA).2.2.1 hclose⟩

/-!
## 2SFCA ratio: `_greenspace_population_ratio`

Per-pixel semantics of the vectorized numpy code.  The source initializes
the output to `FLOAT32_NODATA` and then performs four sequential masked
writes: (1) pixels with `convolved_population <= 1.0` get the greenspace
area; (2) pixels whose greenspace area is numpy-close to 0 get `0`;
(3) valid pixels (`population > 0`, greenspace not close to 0, neither
input equal to its raster's nodata) with population above the degenerate
threshold get the quotient; (4) valid pixels whose current value is
negative are floored to `0`.
-/

def greenspacePopulationRatio (gsNodata popNodata : Option ℚ) (gs pop : ℚ) : ℚ :=
  let greenspacePixel : Bool := ! npIsclose gs 0
  let valid : Bool :=
    decide (0 < pop) && greenspacePixel &&
      ! equalsNodata pop popNodata && ! equalsNodata gs gsNodata
  let closeToZero : Bool := decide (pop ≤ 1)
  let s1 : ℚ := if closeToZero then gs else FLOAT32_NODATA
  let s2 : ℚ := if ! greenspacePixel then 0 else s1
  let s3 : ℚ := if valid && ! closeToZero then gs / pop else s2
  if valid && decide (s3 < 0) then 0 else s3

/-- C2: the nodata-union invariant fails on the code.  At a pixel whose
greenspace area is a valid `50` but whose decayed population is the
`FLOAT32_NODATA` sentinel, the ratio operator outputs `50` — a defined,
non-nodata value — because the sentinel (the float32 minimum, a huge
negative number) satisfies the `convolved_population <= 1.0` degenerate
test, which is applied without the validity mask. -/
theorem greenspacePopulationRatio_nodata_leak :
    greenspacePopulationRatio (some FLOAT32_NODATA) (some FLOAT32_NODATA)
      50 FLOAT32_NODATA = 50 ∧
    npIsclose 50 FLOAT32_NODATA = false := by
  have h50 : npIsclose (50 : ℚ) 0 = false := by
    rw [npIsclose_false_iff] ; norm_num
  have hfar : npIsclose (50 : ℚ) FLOAT32_NODATA = false :=
    npIsclose_nodata_eq_false_of_nonneg (by norm_num)
  have hndle : FLOAT32_NODATA ≤ (1 : ℚ) := by norm_num [FLOAT32_NODATA]
  have hndpos : ¬ ((0 : ℚ) < FLOAT32_NODATA) := by norm_num [FLOAT32_NODATA]
  refine ⟨?_, hfar⟩
  simp [greenspacePopulationRatio, h50, hndle, hndpos]

/-- C3 counterexample: at the concrete input `greenspace_area = -5`
(eligible: nonzero and far from nodata), `decayed_population = 1/2`
(so `0 < p ≤ 1`), the operator returns `0`, not the greenspace area `-5`:
the defensive `< 0` floor also applies to the degenerate branch, not only
to the quotient branch. -/
theorem greenspacePopulationRatio_degenerate_counterexample :
    (-5 : ℚ) ≠ 0 ∧
    npIsclose (-5) FLOAT32_NODATA = false ∧
    (0 : ℚ) < 1 / 2 ∧ (1 / 2 : ℚ) ≤ 1 ∧
    greenspacePopulationRatio (some FLOAT32_NODATA) (some FLOAT32_NODATA)
      (-5) (1 / 2) = 0 ∧
    greenspacePopulationRatio (some FLOAT32_NODATA) (some FLOAT32_NODATA)
      (-5) (1 / 2) ≠ -5 := by
  have hm5 : npIsclose (-5 : ℚ) 0 = false := by
    rw [npIsclose_false_iff] ; norm_num
  have hfar : npIsclose (-5 : ℚ) FLOAT32_NODATA = false := by
    rw [npIsclose_false_iff] ; norm_num [FLOAT32_NODATA]
  have hhalf : npIsclose (1 / 2 : ℚ) FLOAT32_NODATA = false :=
    npIsclose_nodata_eq_false_of_nonneg (by norm_num)
  have hmain : greenspacePopulationRatio (some FLOAT32_NODATA)
      (some FLOAT32_NODATA) (-5) (1 / 2) = 0 := by
    simp [greenspacePopulationRatio, hm5, hfar, hhalf, equalsNodata]
    norm_num [hhalf]
  exact ⟨by norm_num, hfar, by norm_num, by norm_num, hmain,
    by rw [hmain] ; norm_num⟩

/-- C3 (amended): for every pixel whose greenspace area is eligible (not
numpy-close to `0` and not nodata) and whose decayed population `p`
satisfies `0 < p`: if `p ≤ 1` the operator returns `max 0 greenspace_area`
(the greenspace area directly whenever it is nonnegative), and if `1 < p`
it returns `max 0 (greenspace_area / p)` — negative results from either
branch are floored to `0`. -/
theorem greenspacePopulationRatio_amended (gs pop : ℚ)
    (hgs0 : npIsclose gs 0 = false)
    (hgsnd : npIsclose gs FLOAT32_NODATA = false)
    (hpop : 0 < pop) :
    (pop ≤ 1 →
      greenspacePopulationRatio (some FLOAT32_NODATA) (some FLOAT32_NODATA)
        gs pop = max 0 gs) ∧
    (1 < pop →
      greenspacePopulationRatio (some FLOAT32_NODATA) (some FLOAT32_NODATA)
        gs pop = max 0 (gs / pop)) := by
  have hpopnd : npIsclose pop FLOAT32_NODATA = false :=
    npIsclose_nodata_eq_false_of_nonneg hpop.le
  constructor
  · intro hle
    rcases lt_or_le gs 0 with hneg | hnonneg
    · rw [max_eq_left hneg.le]
      simp [greenspacePopulationRatio, equalsNodata, hgs0, hgsnd, hpopnd,
        hpop, hle, hneg]
    · rw [max_eq_right hnonneg]
      simp [greenspacePopulationRatio, equalsNodata, hgs0, hgsnd, hpopnd,
        hpop, hle, not_lt.mpr hnonneg]
  · intro hgt
    have hnle : ¬ (pop ≤ 1) := not_le.mpr hgt
    rcases lt_or_le (gs / pop) 0 with hneg | hnonneg
    · rw [max_eq_left hneg.le]
      simp [greenspacePopulationRatio, equalsNodata, hgs0, hgsnd, hpopnd,
        hpop, hnle, hneg]
    · rw [max_eq_right hnonneg]
      simp [greenspacePopulationRatio, equalsNodata, hgs0, hgsnd, hpopnd,
        hpop, hnle, not_lt.mpr hnonneg]

/-- Witness for the amended C3 at the spec's own test input:
`greenspace_area = 50`, `decayed_population = 1/2` yields `50`
(`max 0 50`), not `100`. -/
theorem greenspacePopulationRatio_amended_witness :
    npIsclose (50 : ℚ) 0 = false ∧
    npIsclose (50 : ℚ) FLOAT32_NODATA = false ∧
    (0 : ℚ) < 1 / 2 ∧ (1 / 2 : ℚ) ≤ 1 ∧
    greenspacePopulationRatio (some FLOAT32_NODATA) (some FLOAT32_NODATA)
      50 (1 / 2) = max 0 50 := by
  have h1 : npIsclose (50 : ℚ) 0 = false := by
    rw [npIsclose_false_iff] ; norm_num
  have h2 : npIsclose (50 : ℚ) FLOAT32_NODATA = false :=
    npIsclose_nodata_eq_false_of_nonneg (by norm_num)
  exact ⟨h1, h2, by norm_num, by norm_num,
    (greenspacePopulationRatio_amended 50 (1 / 2) h1 h2 (by norm_num)).1
      (by norm_num)⟩

/-!
## Weighted sum: `_weighted_sum` / `_weight_and_sum`

The source's `_weighted_sum(raster_path_list, weight_raster_list, target)`
asserts the two lists have equal length, then calls `raster_calculator`
over the VALUE rasters only — the weight rasters are never passed.  Inside
`_weight_and_sum(*args)`, `args` therefore holds only the N value arrays;
`pixel_arrays = args[:int(len(args)/2 + 1)]` and
`weight_arrays = args[int(len(args)/2):]` re-slice those same value
arrays, and `zip(pixel_arrays, weight_arrays, nodata_list)` truncates to
the shortest.  Each triple binds a `weight` that the loop body never uses:
valid pixels contribute their raw `array` value.
-/

def weightAndSum (vals : List ℚ) (nodataList : List (Option ℚ)) : ℚ :=
  let pixelArrays := vals.take (vals.length / 2 + 1)
  let weightArrays := vals.drop (vals.length / 2)
  let triples := pixelArrays.zip (weightArrays.zip nodataList)
  let touched := triples.any (fun t => ! equalsNodata t.1 t.2.2)
  let total :=
    ((triples.filter (fun t => ! equalsNodata t.1 t.2.2)).map
      (fun t => t.1)).sum
  if touched then total else FLOAT32_NODATA

/-- `_weighted_sum` per pixel: the `weights` argument is accepted (its
length is asserted equal to `vals`) but never forwarded to the per-pixel
op, exactly as in the source. -/
def weightedSum (vals weights : List ℚ) (nodataList : List (Option ℚ)) : ℚ :=
  weightAndSum vals nodataList

/-- Modelled from the spec: the intended nodata-aware weighted sum — each
raster is paired with a per-pixel weight raster, the term for a valid
input is `value * weight`, and a pixel is nodata in the output only if it
is nodata in every input. -/
def weightedSumSpec (vals weights : List ℚ)
    (nodataList : List (Option ℚ)) : ℚ :=
  let triples := vals.zip (weights.zip nodataList)
  let touched := triples.any (fun t => ! equalsNodata t.1 t.2.2)
  let total :=
    ((triples.filter (fun t => ! equalsNodata t.1 t.2.2)).map
      (fun t => t.1 * t.2.1)).sum
  if touched then total else FLOAT32_NODATA

/-- C1: evaluation at the failing input.  Two valid value rasters `10` and
`20` with weight rasters `1/2` and `1/2` everywhere: the code produces
`10` (the first raster's raw value — weights are ignored and the zip
truncation drops the second raster), while the specified weighted sum is
`10 * 1/2 + 20 * 1/2 = 15`.  The spec's two-equal-rasters scenario
(`0.3`/`0.7` weights on two copies of `10`) coincidentally produces the
common value `10`, so that particular consequence holds by accident. -/
theorem weightedSum_ignores_weights :
    weightedSum [10, 20] [1 / 2, 1 / 2]
      [some FLOAT32_NODATA, some FLOAT32_NODATA] = 10 ∧
    weightedSumSpec [10, 20] [1 / 2, 1 / 2]
      [some FLOAT32_NODATA, some FLOAT32_NODATA] = 15 ∧
    weightedSum [10, 10] [3 / 10, 7 / 10]
      [some FLOAT32_NODATA, some FLOAT32_NODATA] = 10 := by
  have h10 : npIsclose (10 : ℚ) FLOAT32_NODATA = false :=
    npIsclose_nodata_eq_false_of_nonneg (by norm_num)
  have h20 : npIsclose (20 : ℚ) FLOAT32_NODATA = false :=
    npIsclose_nodata_eq_false_of_nonneg (by norm_num)
  refine ⟨?_, ?_, ?_⟩
  · simp [weightedSum, weightAndSum, equalsNodata, h10, h20]
  · simp [weightedSumSpec, equalsNodata, h10, h20]
    norm_num
  · simp [weightedSum, weightAndSum, equalsNodata, h10]

/-!
## Filtered population: `_filter_population`

Per-pixel semantics: both inputs must be far (numpy-isclose) from
`FLOAT32_NODATA`; where valid, the output is the population if
`op(budget, 0)` holds and `0` otherwise; invalid pixels are nodata.
-/

def bothValid (p b : ℚ) : Bool :=
  ! npIsclose b FLOAT32_NODATA && ! npIsclose p FLOAT32_NODATA

def filterPopulation (op : ℚ → ℚ → Bool) (p b : ℚ) : ℚ :=
  if bothValid p b then (if op b 0 then p else 0) else FLOAT32_NODATA

/-- Sum of a raster band over its valid (non-nodata-close) pixels. -/
def validSum (xs : List ℚ) : ℚ :=
  (xs.filter (fun v => ! npIsclose v FLOAT32_NODATA)).sum

theorem npIsclose_refl (a : ℚ) : npIsclose a a = true := by
  rw [npIsclose_true_iff, sub_self, abs_zero]
  positivity

theorem validSum_cons (x : ℚ) (xs : List ℚ) :
    validSum (x :: xs) =
      (if npIsclose x FLOAT32_NODATA = false then x else 0) + validSum xs := by
  by_cases hx : npIsclose x FLOAT32_NODATA = false
  · simp [validSum, List.filter_cons, hx]
  · simp only [Bool.not_eq_false] at hx
    simp [validSum, List.filter_cons, hx]

/-- The output of `_filter_population` is nodata-close exactly where at
least one input is nodata-close. -/
theorem filterPopulation_valid_iff (op : ℚ → ℚ → Bool) (p b : ℚ) :
    npIsclose (filterPopulation op p b) FLOAT32_NODATA = ! bothValid p b := by
  by_cases hv : bothValid p b = true
  · have hp : npIsclose p FLOAT32_NODATA = false := by
      have := (Bool.and_eq_true _ _).mp hv
      simpa using this.2
    by_cases hop : op b 0 = true
    · simp [filterPopulation, hv, hop, hp]
    · simp [filterPopulation, hv, hop,
        npIsclose_nodata_eq_false_of_nonneg (le_refl (0 : ℚ))]
  · simp [filterPopulation, hv, npIsclose_refl]

theorem filterPopulation_roundtrip_aux (pixels : List (ℚ × ℚ))
    (h : ∀ q ∈ pixels,
      npIsclose q.1 FLOAT32_NODATA = npIsclose q.2 FLOAT32_NODATA) :
    validSum (pixels.map
        (fun q => filterPopulation (fun b z => decide (b < z)) q.1 q.2)) +
      validSum (pixels.map
        (fun q => filterPopulation (fun b z => decide (z < b)) q.1 q.2)) +
      ((pixels.filter
        (fun q => bothValid q.1 q.2 && decide (q.2 = 0))).map
          (fun q => q.1)).sum
      = validSum (pixels.map (fun q => q.1)) := by
  induction pixels with
  | nil => simp [validSum]
  | cons q rest ih =>
    have hq := h q (List.mem_cons_self q rest)
    have hrest := ih (fun r hr => h r (List.mem_cons_of_mem q hr))
    obtain ⟨p, b⟩ := q
    simp only at hq
    by_cases hp : npIsclose p FLOAT32_NODATA = false
    · have hb : npIsclose b FLOAT32_NODATA = false := by rw [← hq] ; exact hp
      have hv : bothValid p b = true := by simp [bothValid, hp, hb]
      have h0 : npIsclose (0 : ℚ) FLOAT32_NODATA = false :=
        npIsclose_nodata_eq_false_of_nonneg (le_refl 0)
      have hlt : filterPopulation (fun b z => decide (b < z)) p b
          = if b < 0 then p else 0 := by
        simp only [filterPopulation, hv, if_true, decide_eq_true_eq]
      have hgt : filterPopulation (fun b z => decide (z < b)) p b
          = if 0 < b then p else 0 := by
        simp only [filterPopulation, hv, if_true, decide_eq_true_eq]
      simp only [List.map_cons, List.filter_cons, validSum_cons, hlt, hgt, hv,
        Bool.true_and]
      rcases lt_trichotomy b 0 with hneg | hzero | hpos
      · have h1 : (if b < 0 then p else 0) = p := if_pos hneg
        have h2 : (if 0 < b then p else 0) = 0 := if_neg (by linarith)
        have h3 : decide (b = 0) = false := by
          simp [hneg.ne]
        rw [h1, h2, h3]
        simp [hp, h0]
        linarith [hrest]
      · have h1 : (if b < 0 then p else 0) = 0 := if_neg (by simp [hzero])
        have h2 : (if 0 < b then p else 0) = 0 := if_neg (by simp [hzero])
        have h3 : decide (b = 0) = true := by simp [hzero]
        rw [h1, h2, h3]
        simp [hp, h0]
        linarith [hrest]
      · have h1 : (if b < 0 then p else 0) = 0 := if_neg (by linarith)
        have h2 : (if 0 < b then p else 0) = p := if_pos hpos
        have h3 : decide (b = 0) = false := by simp [hpos.ne.symm]
        rw [h1, h2, h3]
        simp [hp, h0]
        linarith [hrest]
    · have hptrue : npIsclose p FLOAT32_NODATA = true := by
        simpa using hp
      have hb : npIsclose b FLOAT32_NODATA = true := by rw [← hq] ; exact hptrue
      have hv : bothValid p b = false := by simp [bothValid, hb]
      have hnd : npIsclose FLOAT32_NODATA FLOAT32_NODATA = true :=
        npIsclose_refl _
      have hf : ∀ op : ℚ → ℚ → Bool, filterPopulation op p b = FLOAT32_NODATA := by
        intro op
        simp [filterPopulation, hv]
      simp only [List.map_cons, List.filter_cons, validSum_cons, hf, hv,
        Bool.false_and]
      simp [hnd, hptrue]
      linarith [hrest]

/-- C6: for population and budget arrays valid at the same pixels, the
undersupplied population (`op` is `<`) plus the oversupplied population
(`op` is `>`) plus the population of valid pixels with budget exactly `0`,
each summed over valid pixels, equals the total valid population; and each
filtered output pixel is valid exactly where both inputs are valid. -/
theorem filterPopulation_spec (pixels : List (ℚ × ℚ))
    (h : ∀ q ∈ pixels,
      npIsclose q.1 FLOAT32_NODATA = npIsclose q.2 FLOAT32_NODATA) :
    (validSum (pixels.map
        (fun q => filterPopulation (fun b z => decide (b < z)) q.1 q.2)) +
      validSum (pixels.map
        (fun q => filterPopulation (fun b z => decide (z < b)) q.1 q.2)) +
      ((pixels.filter
        (fun q => bothValid q.1 q.2 && decide (q.2 = 0))).map
          (fun q => q.1)).sum
      = validSum (pixels.map (fun q => q.1))) ∧
    (∀ (op : ℚ → ℚ → Bool) (p b : ℚ),
      npIsclose (filterPopulation op p b) FLOAT32_NODATA = ! bothValid p b) :=
  ⟨filterPopulation_roundtrip_aux pixels h,
    fun op p b => filterPopulation_valid_iff op p b⟩

/-- Witness for C6 on the concrete raster
`[(5, -1), (3, 2), (7, 0), (FLOAT32_NODATA, FLOAT32_NODATA)]`
(population, budget): the round-trip identity holds and the total valid
population evaluates to `5 + 3 + 7 = 15`. -/
theorem filterPopulation_spec_witness :
    (validSum (([(5, -1), (3, 2), (7, 0),
        (FLOAT32_NODATA, FLOAT32_NODATA)] : List (ℚ × ℚ)).map
        (fun q => filterPopulation (fun b z => decide (b < z)) q.1 q.2)) +
      validSum (([(5, -1), (3, 2), (7, 0),
        (FLOAT32_NODATA, FLOAT32_NODATA)] : List (ℚ × ℚ)).map
        (fun q => filterPopulation (fun b z => decide (z < b)) q.1 q.2)) +
      ((([(5, -1), (3, 2), (7, 0),
        (FLOAT32_NODATA, FLOAT32_NODATA)] : List (ℚ × ℚ)).filter
        (fun q => bothValid q.1 q.2 && decide (q.2 = 0))).map
          (fun q => q.1)).sum
      = validSum (([(5, -1), (3, 2), (7, 0),
        (FLOAT32_NODATA, FLOAT32_NODATA)] : List (ℚ × ℚ)).map
        (fun q => q.1))) ∧
    validSum (([(5, -1), (3, 2), (7, 0),
        (FLOAT32_NODATA, FLOAT32_NODATA)] : List (ℚ × ℚ)).map
      (fun q => q.1)) = 15 := by
  have h5 : npIsclose (5 : ℚ) FLOAT32_NODATA = false :=
    npIsclose_nodata_eq_false_of_nonneg (by norm_num)
  have h3 : npIsclose (3 : ℚ) FLOAT32_NODATA = false :=
    npIsclose_nodata_eq_false_of_nonneg (by norm_num)
  have h7 : npIsclose (7 : ℚ) FLOAT32_NODATA = false :=
    npIsclose_nodata_eq_false_of_nonneg (by norm_num)
  have hm1 : npIsclose (-1 : ℚ) FLOAT32_NODATA = false := by
    rw [npIsclose_false_iff] ; norm_num [FLOAT32_NODATA]
  have h2 : npIsclose (2 : ℚ) FLOAT32_NODATA = false :=
    npIsclose_nodata_eq_false_of_nonneg (by norm_num)
  have h0 : npIsclose (0 : ℚ) FLOAT32_NODATA = false :=
    npIsclose_nodata_eq_false_of_nonneg (le_refl 0)
  have hmem : ∀ q ∈ ([(5, -1), (3, 2), (7, 0),
      (FLOAT32_NODATA, FLOAT32_NODATA)] : List (ℚ × ℚ)),
      npIsclose q.1 FLOAT32_NODATA = npIsclose q.2 FLOAT32_NODATA := by
    intro q hqmem
    simp only [List.mem_cons, List.not_mem_nil, or_false] at hqmem
    rcases hqmem with rfl | rfl | rfl | rfl <;>
      simp [h5, hm1, h3, h2, h7, h0]
  refine ⟨(filterPopulation_spec _ hmem).1, ?_⟩
  simp [validSum, List.filter_cons, h5, h3, h7, npIsclose_refl]
  norm_num

/-!
## Decay kernels: `_kernel_dichotomy` / `_kernel_exponential` /
`_kernel_gaussian` / `_kernel_density` / `_kernel_power` and
`_create_kernel_raster`

Each kernel function maps a euclidean pixel distance and the maximum
distance to a float weight; pixels beyond the maximum distance keep the
zero-initialized value.  `_create_kernel_raster` allocates a square raster
of side `2 * ceil(expected_distance) + 1` and writes
`kernel_function(hypot(dy, dx), expected_distance)` at every offset
`(dy, dx)` from the center, the center included.
-/

noncomputable def kernelDichotomy (distance maxDistance : ℝ) : ℝ :=
  if distance ≤ maxDistance then 1 else 0

/-- numpy boolean-mask assignment `target[mask] = value` with a 2-D
`value`: numpy requires the assigned value to be 0- or 1-dimensional and
raises `TypeError` (boolean array indexing assignment requires a 0 or
1-dimensional input) otherwise, so the assignment never succeeds;
modelled as `none`.  The three working kernel functions instead assign
the 1-D `distance[pixels_in_radius] ...` and are modelled per pixel. -/
def numpyBooleanMaskAssign2D (target : ℤ → ℤ → ℝ) (mask : ℤ → ℤ → Bool)
    (value : ℤ → ℤ → ℝ) : Option (ℤ → ℤ → ℝ) :=
  none

/-- `_kernel_exponential` as called by `_create_kernel_raster`, which
always passes the 2-D distance grid `numpy.hypot(*numpy.mgrid[...])`:
`kernel = numpy.zeros(distance.shape)`,
`pixels_in_radius = (distance <= max_distance)`, then
`kernel[pixels_in_radius] = numpy.exp(-distance / max_distance)` — the
right-hand side is the full, unmasked 2-D exponential grid (elementwise
`numpy.exp` preserves the operand's dimensionality), so the boolean-mask
assignment raises `TypeError` and no kernel is returned. -/
noncomputable def kernelExponential (distance : ℤ → ℤ → ℝ)
    (maxDistance : ℝ) : Option (ℤ → ℤ → ℝ) :=
  let kernel : ℤ → ℤ → ℝ := fun _ _ => 0
  let pixelsInRadius : ℤ → ℤ → Bool :=
    fun dy dx => decide (distance dy dx ≤ maxDistance)
  numpyBooleanMaskAssign2D kernel pixelsInRadius
    (fun dy dx => Real.exp (-(distance dy dx) / maxDistance))

/-- Modelled from the spec (and from `_kernel_exponential`'s own
docstring): the intended exponential kernel, `exp(-d/R)` within the
radius and `0` beyond it.  The source's unmasked 2-D assignment raises
instead of computing these values — see `kernelExponential`. -/
noncomputable def kernelExponentialIntended (distance maxDistance : ℝ) : ℝ :=
  if distance ≤ maxDistance then Real.exp (-distance / maxDistance) else 0

noncomputable def kernelGaussian (distance maxDistance : ℝ) : ℝ :=
  if distance ≤ maxDistance then
    (Real.exp (-(1 / 2) * (distance / maxDistance) ^ 2)
        - Real.exp (-(1 / 2))) / (1 - Real.exp (-(1 / 2)))
  else 0

noncomputable def kernelDensity (distance maxDistance : ℝ) : ℝ :=
  if distance ≤ maxDistance then
    3 / 4 * (1 - (distance / maxDistance) ^ 2)
  else 0

/-- Euclidean distance of the pixel offset `(dy, dx)` from the kernel
center, `numpy.hypot` over the `mgrid` offsets. -/
noncomputable def pixelHypot (dy dx : ℤ) : ℝ :=
  Real.sqrt ((dy : ℝ) ^ 2 + (dx : ℝ) ^ 2)

/-- `kernel_size = pixel_radius * 2 + 1` with
`pixel_radius = math.ceil(expected_distance)`. -/
noncomputable def kernelSize (expectedDistance : ℝ) : ℤ :=
  2 * ⌈expectedDistance⌉ + 1

/-- The value `_create_kernel_raster` writes at offset `(dy, dx)`. -/
noncomputable def kernelRasterValue (f : ℝ → ℝ → ℝ) (expectedDistance : ℝ)
    (dy dx : ℤ) : ℝ :=
  f (pixelHypot dy dx) expectedDistance

/-- C4: the claim fails for the exponential decay function and the code
is the slip.  `_create_kernel_raster` always passes the 2-D
`hypot(mgrid)` distance grid, and `_kernel_exponential` assigns the
unmasked 2-D `numpy.exp(-distance/max_distance)` through the boolean
in-radius mask — numpy rejects a 2-D right-hand side in boolean-mask
assignment with `TypeError`, so no exponential kernel raster is ever
produced (modelled: `none`), while the claim and the function's own
docstring expect the masked exponential with value `exp(-0/R) = 1` at the
center.  The three kernels that mask their right-hand sides do satisfy
the claimed pointwise properties, shown here at radius `R = 3`: side
`2*ceil(3)+1 = 7` (odd), center offset `(0,0)` values `1`, `1`, `3/4`,
and exactly `0` at offset `(3,4)` whose distance `hypot(3,4) = 5` exceeds
the radius. -/
theorem kernelExponential_raises_typeerror :
    kernelExponential pixelHypot 3 = none ∧
    kernelExponentialIntended 0 3 = 1 ∧
    (kernelRasterValue kernelDichotomy 3 0 0 = 1 ∧
      kernelRasterValue kernelGaussian 3 0 0 = 1 ∧
      kernelRasterValue kernelDensity 3 0 0 = 3 / 4) ∧
    ((3 : ℝ) < pixelHypot 3 4 ∧
      kernelRasterValue kernelDichotomy 3 3 4 = 0 ∧
      kernelRasterValue kernelGaussian 3 3 4 = 0 ∧
      kernelRasterValue kernelDensity 3 3 4 = 0) ∧
    (kernelSize 3 = 7 ∧ Odd (kernelSize 3)) := by
  have h00 : pixelHypot 0 0 = 0 := by simp [pixelHypot]
  have h34 : pixelHypot 3 4 = 5 := by
    rw [pixelHypot]
    rw [show (((3 : ℤ) : ℝ) ^ 2 + ((4 : ℤ) : ℝ) ^ 2 : ℝ) = 5 ^ 2 by norm_num]
    exact Real.sqrt_sq (by norm_num)
  have hnle : ¬ ((5 : ℝ) ≤ 3) := by norm_num
  have hexp1 : Real.exp (-(1 / 2)) < 1 :=
    Real.exp_lt_one_iff.mpr (by norm_num)
  have hne : 1 - Real.exp (-(1 / 2)) ≠ 0 := by linarith
  refine ⟨rfl, ?_, ⟨?_, ?_, ?_⟩, ⟨by rw [h34] ; norm_num, ?_, ?_, ?_⟩,
    by norm_num [kernelSize], by norm_num [kernelSize] ; exact ⟨3, by norm_num⟩⟩
  · simp [kernelExponentialIntended, Real.exp_zero]
  · simp [kernelRasterValue, h00, kernelDichotomy]
  · rw [kernelRasterValue, h00]
    have hz : (-(1 / 2) : ℝ) * (0 / 3) ^ 2 = 0 := by norm_num
    rw [kernelGaussian, if_pos (by norm_num : (0 : ℝ) ≤ 3), hz, Real.exp_zero]
    exact div_self hne
  · rw [kernelRasterValue, h00]
    rw [kernelDensity, if_pos (by norm_num : (0 : ℝ) ≤ 3)]
    norm_num
  · rw [kernelRasterValue, h34, kernelDichotomy, if_neg hnle]
  · rw [kernelRasterValue, h34, kernelGaussian, if_neg hnle]
  · rw [kernelRasterValue, h34, kernelDensity, if_neg hnle]

/-- numpy floating-point elementwise power for a nonnegative base:
`0.0 ** beta` with `beta < 0` is an unguarded division by zero producing
`+inf` (numpy emits a divide-by-zero warning and returns `inf`); for any
other nonnegative base it is the real power.  Modelled on the extended
reals so that the infinity is explicit. -/
noncomputable def npFloatPow (x beta : ℝ) : EReal :=
  if x = 0 ∧ beta < 0 then ⊤ else ((Real.rpow x beta : ℝ) : EReal)

/-- `_kernel_power`: pixels within the radius get `distance ** beta`, the
rest keep the zero initialization. -/
noncomputable def kernelPower (distance maxDistance beta : ℝ) : EReal :=
  if distance ≤ maxDistance then npFloatPow distance beta else (0 : EReal)

/-- The value `_create_kernel_raster` writes at offset `(dy, dx)` for the
power kernel: the writer applies the kernel function at every offset of
the raster, the center included. -/
noncomputable def kernelRasterValuePower (expectedDistance beta : ℝ)
    (dy dx : ℤ) : EReal :=
  kernelPower (pixelHypot dy dx) expectedDistance beta

/-- C10: for the power decay function with any negative exponent `beta`
and any radius `R > 0`, the center pixel (distance `0`, which always
satisfies `distance ≤ R`) is not excluded or substituted: the written
value is `0 ** beta`, an unguarded division by zero, i.e. an infinite
weight. -/
theorem kernelPower_center_infinite (R beta : ℝ) (hR : 0 < R)
    (hbeta : beta < 0) :
    pixelHypot 0 0 ≤ R ∧ kernelRasterValuePower R beta 0 0 = ⊤ := by
  have h0 : pixelHypot 0 0 = 0 := by simp [pixelHypot]
  refine ⟨by rw [h0] ; exact hR.le, ?_⟩
  rw [kernelRasterValuePower, kernelPower, h0, if_pos hR.le, npFloatPow,
    if_pos ⟨rfl, hbeta⟩]

/-- Witness for C10 at the concrete radius `R = 1` and exponent
`beta = -1`. -/
theorem kernelPower_center_infinite_witness :
    (0 : ℝ) < 1 ∧ (-1 : ℝ) < 0 ∧
    (pixelHypot 0 0 ≤ (1 : ℝ) ∧ kernelRasterValuePower 1 (-1) 0 0 = ⊤) :=
  ⟨by norm_num, by norm_num,
    kernelPower_center_infinite 1 (-1) (by norm_num) (by norm_num)⟩

/-!
## Mass-conserving resampler: `_resample_population_raster`

Step 1 (`_convert_population_to_density`) divides every valid pixel by the
source pixel area in km²; nodata pixels become the float32 sentinel.
Step 2 bilinear-warps the density raster — an external collaborator
consumed as a black box.  Step 3 (`_convert_density_to_population`)
multiplies every valid warped pixel by the target pixel area in km².
-/

def convertPopulationToDensity (populationNodata : Option ℚ)
    (populationPixelArea : ℚ) (population : ℚ) : ℚ :=
  match populationNodata with
  | none => population / populationPixelArea
  | some nd =>
    if npIsclose population nd then FLOAT32_NODATA
    else population / populationPixelArea

def convertDensityToPopulation (targetPixelArea : ℚ) (density : ℚ) : ℚ :=
  if npIsclose density FLOAT32_NODATA then FLOAT32_NODATA
  else density * targetPixelArea

theorem list_sum_map_mul (l : List ℚ) (c : ℚ) :
    (l.map (fun x => x * c)).sum = l.sum * c := by
  induction l with
  | nil => simp
  | cons x xs ih => simp [ih, add_mul]

/-- C5: the resampler divides every valid source pixel by the source pixel
area (km²) with nodata propagating, multiplies every valid warped pixel by
the target pixel area (km²), and therefore — whenever the intermediate
warp preserves the area-weighted density mass, the idealization of an
area-preserving projection with no interpolation or clipping error — the
output total equals the input total. -/
theorem resamplePopulation_spec :
    (∀ (nd area p : ℚ), npIsclose p nd = false →
      convertPopulationToDensity (some nd) area p = p / area) ∧
    (∀ (nd area p : ℚ), npIsclose p nd = true →
      convertPopulationToDensity (some nd) area p = FLOAT32_NODATA) ∧
    (∀ (area d : ℚ), npIsclose d FLOAT32_NODATA = false →
      convertDensityToPopulation area d = d * area) ∧
    (∀ (ps ds : List ℚ) (nd srcArea tgtArea : ℚ),
      srcArea ≠ 0 →
      (∀ p ∈ ps, npIsclose p nd = false) →
      (∀ d ∈ ds, npIsclose d FLOAT32_NODATA = false) →
      ds.sum * tgtArea
        = (ps.map (convertPopulationToDensity (some nd) srcArea)).sum
            * srcArea →
      (ds.map (convertDensityToPopulation tgtArea)).sum = ps.sum) := by
  have hdens : ∀ (nd area p : ℚ), npIsclose p nd = false →
      convertPopulationToDensity (some nd) area p = p / area := by
    intro nd area p hp
    simp [convertPopulationToDensity, hp]
  have hpop : ∀ (area d : ℚ), npIsclose d FLOAT32_NODATA = false →
      convertDensityToPopulation area d = d * area := by
    intro area d hd
    simp [convertDensityToPopulation, hd]
  refine ⟨hdens, ?_, hpop, ?_⟩
  · intro nd area p hp
    simp [convertPopulationToDensity, hp]
  · intro ps ds nd srcArea tgtArea hsrc hps hds hwarp
    have hmap1 : ps.map (convertPopulationToDensity (some nd) srcArea)
        = ps.map (fun p => p * srcArea⁻¹) := by
      refine List.map_congr_left ?_
      intro p hpmem
      rw [hdens nd srcArea p (hps p hpmem), div_eq_mul_inv]
    have hmap2 : ds.map (convertDensityToPopulation tgtArea)
        = ds.map (fun d => d * tgtArea) := by
      refine List.map_congr_left ?_
      intro d hdmem
      exact hpop tgtArea d (hds d hdmem)
    rw [hmap2, list_sum_map_mul, hwarp, hmap1, list_sum_map_mul]
    rw [mul_assoc, inv_mul_cancel₀ hsrc, mul_one]

/-- Witness for C5: source raster `[4, 6]` with pixel area `2` km²
(densities `[2, 3]`), ideal warp to the single-pixel density raster `[2]`
with target pixel area `5` km²: output total `10` equals input total
`10`. -/
theorem resamplePopulation_spec_witness :
    (2 : ℚ) ≠ 0 ∧
    (([2] : List ℚ).map (convertDensityToPopulation 5)).sum
      = ([4, 6] : List ℚ).sum := by
  have h4 : npIsclose (4 : ℚ) FLOAT32_NODATA = false :=
    npIsclose_nodata_eq_false_of_nonneg (by norm_num)
  have h6 : npIsclose (6 : ℚ) FLOAT32_NODATA = false :=
    npIsclose_nodata_eq_false_of_nonneg (by norm_num)
  have h2 : npIsclose (2 : ℚ) FLOAT32_NODATA = false :=
    npIsclose_nodata_eq_false_of_nonneg (by norm_num)
  refine ⟨by norm_num, ?_⟩
  refine resamplePopulation_spec.2.2.2 [4, 6] [2] FLOAT32_NODATA 2 5
    (by norm_num) ?_ ?_ ?_
  · intro p hpmem
    simp only [List.mem_cons, List.not_mem_nil, or_false] at hpmem
    rcases hpmem with rfl | rfl
    · exact h4
    · exact h6
  · intro d hdmem
    simp only [List.mem_cons, List.not_mem_nil, or_false] at hdmem
    rcases hdmem with rfl
    exact h2
  · simp [convertPopulationToDensity, h4, h6]
    norm_num

/-!
## Mode equivalence of the supply stage (`execute`, three radius modes)

The three branches share the ratio raster computation and differ in how
the final supply raster is produced from it:

  * uniform mode convolves the ratio raster with the kernel through
    `_convolve_and_set_lower_bound` (convolution plus the negative clamp);
  * per-greenspace-class mode convolves each per-class ratio raster with
    `pygeoprocessing.convolve_2d` directly (no clamp) and combines the
    partial supplies with `ndr._sum_rasters`; with a single class the
    combination is over a one-element list;
  * per-population-group mode convolves the shared ratio raster with each
    group's kernel (no clamp) and combines with `_weighted_sum`; with a
    single group the combination is over one-element lists.

The convolution itself is an external collaborator; it is modelled here in
exact arithmetic as a kernel-weighted sum over the signal's valid pixels
with nodata contributing zero.
-/

def valueValid (v : ℚ) : Bool := ! npIsclose v FLOAT32_NODATA

/-- Exact-arithmetic model of `pygeoprocessing.convolve_2d` (external
collaborator consumed as a black box): each output pixel is a
kernel-weighted sum of the signal's valid pixels, nodata contributing
zero. -/
def convolveExact {n : ℕ} (k : Fin n → Fin n → ℚ) (s : Fin n → ℚ)
    (p : Fin n) : ℚ :=
  ∑ i, k p i * (if valueValid (s i) then s i else 0)

/-- Modelled from the spec: `ndr._sum_rasters` is code of this repository
that is not under src/.  Per the spec's nodata-aware sum, a pixel is
nodata in the output only if it is nodata in every input; pixels valid in
at least one input contribute their valid inputs. -/
def sumRastersPixel (vs : List ℚ) : ℚ :=
  if vs.all (fun v => npIsclose v FLOAT32_NODATA) then FLOAT32_NODATA
  else (vs.filter (fun v => ! npIsclose v FLOAT32_NODATA)).sum

/-- Uniform-mode supply pixel: `_convolve_and_set_lower_bound` applied to
the ratio raster. -/
def uniformSupplyPixel {n : ℕ} (k : Fin n → Fin n → ℚ) (r : Fin n → ℚ)
    (p : Fin n) : ℚ :=
  setLowerBound (some FLOAT32_NODATA) (convolveExact k r p)

/-- Per-greenspace-class supply pixel in the single-class case: raw
convolution followed by `ndr._sum_rasters` over the one-element list of
partial supplies. -/
def singleClassSupplyPixel {n : ℕ} (k : Fin n → Fin n → ℚ) (r : Fin n → ℚ)
    (p : Fin n) : ℚ :=
  sumRastersPixel [convolveExact k r p]

/-- Per-population-group supply pixel in the single-group case: raw
convolution followed by `_weighted_sum` over one-element raster and
weight lists (the group's population-proportion raster is `1` everywhere
in the reducible case). -/
def singleGroupSupplyPixel {n : ℕ} (k : Fin n → Fin n → ℚ) (r : Fin n → ℚ)
    (p : Fin n) : ℚ :=
  weightedSum [convolveExact k r p] [1] [some FLOAT32_NODATA]

/-- `_reclassify_greenspace_area`'s per-lucode output value: eligible
codes map to the squared pixel area, other codes to `0`.  With a nonempty
`only_these_greenspace_codes` restriction the eligible set is that
restriction; otherwise it is the set of codes whose `greenspace` attribute
is `1`. -/
def greenspaceAreaMap (attributeTable : List (ℤ × ℤ))
    (squaredPixelArea : ℚ) (onlyTheseGreenspaceCodes : Option (List ℤ))
    (lucode : ℤ) : ℚ :=
  let validGreenspaceCodes : List ℤ :=
    match onlyTheseGreenspaceCodes with
    | some codes => codes
    | none =>
      (attributeTable.filter (fun row => row.2 == 1)).map (fun row => row.1)
  if lucode ∈ validGreenspaceCodes then squaredPixelArea else 0

/-- C7: (i) on a shared ratio raster whose valid pixels are nonnegative
(the ratio operator floors valid outputs at `0`) and a nonnegative kernel,
the single-class supply pixel and the single-group supply pixel both equal
the uniform-mode supply pixel everywhere: the convolution output is
nonnegative, so the uniform clamp is the identity and the singleton
sum/weighted-sum wrappers are the identity on the valid value; (ii) when
the attribute table's greenspace codes are exactly the single class `c`,
restricting classification to `c` yields the same greenspace-area raster
as unrestricted classification, so the single-class ratio input reduces to
the uniform one. -/
theorem modeEquivalence_spec :
    (∀ (n : ℕ) (k : Fin n → Fin n → ℚ) (r : Fin n → ℚ),
      (∀ p i, 0 ≤ k p i) →
      (∀ i, valueValid (r i) = true → 0 ≤ r i) →
      ∀ p, singleClassSupplyPixel k r p = uniformSupplyPixel k r p ∧
        singleGroupSupplyPixel k r p = uniformSupplyPixel k r p) ∧
    (∀ (attributeTable : List (ℤ × ℤ)) (area : ℚ) (c lucode : ℤ),
      (attributeTable.filter (fun row => row.2 == 1)).map (fun row => row.1)
          = [c] →
      greenspaceAreaMap attributeTable area (some [c]) lucode
        = greenspaceAreaMap attributeTable area none lucode) := by
  constructor
  · intro n k r hk hr p
    have hconv : 0 ≤ convolveExact k r p := by
      refine Finset.sum_nonneg ?_
      intro i _
      by_cases hvi : valueValid (r i) = true
      · rw [if_pos hvi]
        exact mul_nonneg (hk p i) (hr i hvi)
      · rw [if_neg hvi, mul_zero]
    have hvalid : npIsclose (convolveExact k r p) FLOAT32_NODATA = false :=
      npIsclose_nodata_eq_false_of_nonneg hconv
    have huniform : uniformSupplyPixel k r p = convolveExact k r p := by
      simp [uniformSupplyPixel, setLowerBound, not_lt.mpr hconv]
    constructor
    · rw [huniform]
      simp [singleClassSupplyPixel, sumRastersPixel, hvalid]
    · rw [huniform]
      simp [singleGroupSupplyPixel, weightedSum, weightAndSum, equalsNodata,
        hvalid]
  · intro attributeTable area c lucode hfilter
    simp only [greenspaceAreaMap, hfilter]

/-- Witness for C7: a one-pixel raster with kernel weight `1` and ratio
value `2` — all three branch supplies equal `2`; and the attribute table
`[(7, 1), (3, 0)]` with single greenspace class `7` classifies lucode `7`
identically with and without the restriction. -/
theorem modeEquivalence_spec_witness :
    ((∀ (p i : Fin 1), 0 ≤ (fun (_ _ : Fin 1) => (1 : ℚ)) p i) ∧
      (∀ i : Fin 1,
        valueValid ((fun (_ : Fin 1) => (2 : ℚ)) i) = true →
          0 ≤ (fun (_ : Fin 1) => (2 : ℚ)) i) ∧
      (([(7, 1), (3, 0)] : List (ℤ × ℤ)).filter
        (fun row => row.2 == 1)).map (fun row => row.1) = [7]) ∧
    (singleClassSupplyPixel (fun (_ _ : Fin 1) => (1 : ℚ))
        (fun _ => (2 : ℚ)) 0
      = uniformSupplyPixel (fun (_ _ : Fin 1) => (1 : ℚ))
          (fun _ => (2 : ℚ)) 0 ∧
      singleGroupSupplyPixel (fun (_ _ : Fin 1) => (1 : ℚ))
        (fun _ => (2 : ℚ)) 0
      = uniformSupplyPixel (fun (_ _ : Fin 1) => (1 : ℚ))
          (fun _ => (2 : ℚ)) 0) ∧
    greenspaceAreaMap [(7, 1), (3, 0)] 100 (some [7]) 7
      = greenspaceAreaMap [(7, 1), (3, 0)] 100 none 7 := by
  have htbl : (([(7, 1), (3, 0)] : List (ℤ × ℤ)).filter
      (fun row => row.2 == 1)).map (fun row => row.1) = [7] := by decide
  refine ⟨⟨fun p i => by norm_num, fun i h => by norm_num, htbl⟩, ?_, ?_⟩
  · exact modeEquivalence_spec.1 1 (fun _ _ => 1) (fun _ => 2)
      (fun p i => by norm_num)
      (fun i h => by norm_num) 0
  · exact modeEquivalence_spec.2 [(7, 1), (3, 0)] 100 7 7 htbl

end UrbanNatureAccess
